import Mathlib

/-!
Verification of the gyroflow orientation-integration core
(`gyro_integrator.py`) against its natural-language specification.

The Python module is shallowly embedded:

* a data row `[time, gyroX, gyroY, gyroZ]` becomes a `Row` of rationals
  (float literals of the source are read as the decimal rationals they
  denote);
* quaternions, which flow through the external `quaternion` library and
  through `sin`/`cos`/`sqrt`, live over the reals;
* the numpy arrays held and returned by reference are modelled with an
  explicit heap of array cells, so that copy-vs-alias questions are
  expressible;
* Python exceptions become an `Except` error value;
* `while` loops whose termination depends on run-time values take an
  explicit fuel argument.
-/

/-- One row of the `Nx4` input matrix: `[time, gyroX, gyroY, gyroZ]`. -/
structure Row where
  t : ℚ
  x : ℚ
  y : ℚ
  z : ℚ
deriving DecidableEq, Repr

instance : Inhabited Row := ⟨⟨0, 0, 0, 0⟩⟩

/-- Python exception outcomes observable from the embedded code.
`invalidArgument` stands for the `KeyError` of an unrecognized axis
keyword (the spec's InvalidArgument), `indexError` for a numpy index
out of range, `attributeError` for reading a missing attribute (such as
`None.shape` or `EulerIntegrator.orientation_list`), and `typeError`
for numpy's forbidden in-place cast (`UFuncTypeError`). -/
inductive PyErr where
  | invalidArgument
  | indexError
  | attributeError
  | typeError
deriving DecidableEq, Repr

/-! ## Constructor-time validation and normalization (lines 25-44)

`GyroIntegrator.__init__` copies the input, truncates at the first
out-of-order timestamp, scales the time and gyro columns, negates the
second gyro axis, and optionally shifts times so the series starts
at zero. -/

/-- Line 27: `time_order_check = self.data[:-1,0] > self.data[1:,0]` —
the boolean vector of adjacent timestamp decreases. -/
def timeOrderCheck (rows : List Row) : List Bool :=
  List.zipWith (fun a b => decide (b.t < a.t)) rows rows.tail

/-- Lines 28-30: if any adjacent pair decreases, keep the inclusive
prefix ending at the first decrease (`np.argmax` of a boolean vector is
the index of its first `true`): `self.data = self.data[0:np.argmax(time_order_check)+1,:]`. -/
def truncateBad (rows : List Row) : List Row :=
  if (timeOrderCheck rows).any (fun b => b) then
    rows.take ((timeOrderCheck rows).findIdx (fun b => b) + 1)
  else
    rows

/-- Lines 33-38: scale column 0 by `time_scaling`, columns 1-3 by
`gyro_scaling`, then negate column 2 (`self.data[:,2] *= -1`). -/
def scaleRows (time_scaling gyro_scaling : ℚ) (rows : List Row) : List Row :=
  rows.map fun r => ⟨r.t * time_scaling, r.x * gyro_scaling, -(r.y * gyro_scaling), r.z * gyro_scaling⟩

/-- Lines 41-42: if `zero_out_time`, subtract the first timestamp from
every timestamp. -/
def zeroOutRows (rows : List Row) : List Row :=
  match rows with
  | [] => []
  | r0 :: _ => rows.map fun r => { r with t := r.t - r0.t }

/-- The stored `self.data` after `GyroIntegrator.__init__` (lines 25-42).
`none` models the `IndexError` the constructor raises on an empty input
(lines 42 and 46 index `data[0,0]` / `data[-1,0]`). -/
def initData (input : List Row) (time_scaling gyro_scaling : ℚ) (zero_out_time : Bool) :
    Option (List Row) :=
  let d := scaleRows time_scaling gyro_scaling (truncateBad input)
  match d with
  | [] => none
  | _ :: _ => some (if zero_out_time then zeroOutRows d else d)

/-! ## Quaternions and the external quaternion library

The Python module consumes `quaternion.py` (construction, Hamilton
product, normalize, SLERP, relative rotation), which the spec declares
an external, pre-existing library outside this core (spec sections 1
and 6); it is not under `src/`. -/

/-- A quaternion `(w, x, y, z)` over the reals. -/
structure Quat where
  w : ℝ
  x : ℝ
  y : ℝ
  z : ℝ

instance : Inhabited Quat := ⟨⟨1, 0, 0, 0⟩⟩

/-- Modelled from the spec: the Hamilton product of the external
quaternion library (`quat.quaternion_multiply`, spec section 6). -/
def quaternion_multiply (p q : Quat) : Quat :=
  ⟨p.w * q.w - p.x * q.x - p.y * q.y - p.z * q.z,
   p.w * q.x + p.x * q.w + p.y * q.z - p.z * q.y,
   p.w * q.y - p.x * q.z + p.y * q.w + p.z * q.x,
   p.w * q.z + p.x * q.y - p.y * q.x + p.z * q.w⟩

/-- Modelled from the spec: quaternion normalization of the external
library (`quat.normalize`): every component divided by the euclidean
norm. -/
noncomputable def qnormalize (q : Quat) : Quat :=
  let n := Real.sqrt (q.w * q.w + q.x * q.x + q.y * q.y + q.z * q.z)
  ⟨q.w / n, q.x / n, q.y / n, q.z / n⟩

/-- Modelled from the spec: the conjugate quaternion, used to build the
relative rotation. -/
def qconj (q : Quat) : Quat := ⟨q.w, -q.x, -q.y, -q.z⟩

/-- Modelled from the spec: `quat.rot_between(a, b)` — the relative
rotation taking orientation `a` onto orientation `b` (spec section 4.7),
realized as composition of `b` with the conjugate of the unit
quaternion `a`. -/
def rot_between (a b : Quat) : Quat := quaternion_multiply b (qconj a)

/-- Lines 263-291: `GyroIntegrator.rate_to_quat(omega, dt)`, the so(3)
exponential map: `ha = omega*dt*0.5` and `l = sqrt(ha.dot(ha))`; for
`l > 1.0e-12` the result is `normalize((cos l, ha*sin(l)/l))`, otherwise
the identity quaternion `(1,0,0,0)`. -/
noncomputable def rate_to_quat (ox oy oz dt : ℝ) : Quat :=
  let hx := ox * dt * (1/2)
  let hy := oy * dt * (1/2)
  let hz := oz * dt * (1/2)
  let l := Real.sqrt (hx * hx + hy * hy + hz * hz)
  if 1 / 10 ^ 12 < l then
    let s := Real.sin l / l
    qnormalize ⟨Real.cos l, hx * s, hy * s, hz * s⟩
  else
    ⟨1, 0, 0, 0⟩

/-! ## The integration loop (lines 68-114) -/

/-- Lines 89-94: the symmetric time step `(t[i+1] - t[i-1]) / 2`, with
`t[i]` itself substituting for the missing neighbor at the first and
last index. -/
def symmetricDt (data : List Row) (i : Nat) : ℚ :=
  let thisT := (data.getD i default).t
  let lastT := if 0 < i then (data.getD (i - 1) default).t else thisT
  let nextT := if i < data.length - 1 then (data.getD (i + 1) default).t else thisT
  (nextT - lastT) / 2

/-- Lines 96-104: one iteration of the integration loop. If the angular
velocity at index `i` is all zero (`np.any(omega)` false) the
orientation is held; otherwise it is composed on the right with the
incremental quaternion and renormalized. -/
noncomputable def updOrient (data : List Row) (o : Quat) (i : Nat) : Quat :=
  if (data.getD i default).x = 0 ∧ (data.getD i default).y = 0 ∧
      (data.getD i default).z = 0 then o
  else qnormalize (quaternion_multiply o
    (rate_to_quat (data.getD i default).x (data.getD i default).y
      (data.getD i default).z (symmetricDt data i)))

/-- The value of `self.orientation` after the first `k` iterations of
the loop of `integrate_all`. -/
noncomputable def orientAfter (data : List Row) (o0 : Quat) : Nat → Quat
  | 0 => o0
  | k + 1 => updOrient data (orientAfter data o0 k) k

/-- The `orientation_list` built by `integrate_all`: entry `i` is a copy
of the orientation right after processing sample `i` (line 106). -/
noncomputable def orientList (data : List Row) (o0 : Quat) : List Quat :=
  (List.range data.length).map fun i => orientAfter data o0 (i + 1)

/-- Lines 83-114: the `(time_list, orientation_list)` pair computed by
`GyroIntegrator.integrate_all` on its first run, as a function of the
stored data and the starting orientation. -/
noncomputable def integrate_all (data : List Row) (o0 : Quat) : List ℚ × List Quat :=
  (data.map Row.t, orientList data o0)

/-! ## Heap model for numpy arrays

Numpy arrays are mutable objects passed by reference in Python. To make
copy-versus-alias observable, arrays live in an explicit heap of cells;
an array value held by the integrator or returned to a caller is a cell
id. `np.copy` allocates a fresh cell; returning a field as-is returns
its id. -/

/-- A heap cell: one numpy array. `qs` holds a 1-D float array, `vecs`
an Nx3 array, `quats` an Nx4 quaternion array, `rows` the Nx4 data
matrix. -/
inductive PyArr where
  | qs (l : List ℚ)
  | vecs (l : List (ℚ × ℚ × ℚ))
  | quats (l : List Quat)
  | rows (l : List Row)

/-- The heap: cells addressed by their allocation index. -/
structure Heap where
  cells : List PyArr

/-- Allocate a fresh cell, returning the new heap and the fresh id. -/
def Heap.alloc (h : Heap) (a : PyArr) : Heap × Nat :=
  (⟨h.cells ++ [a]⟩, h.cells.length)

/-- Read the cell with the given id (junk for a dangling id, which no
reachable state produces). -/
def Heap.read (h : Heap) (id : Nat) : PyArr :=
  h.cells.getD id (.qs [])

/-- Overwrite the contents of a cell: the observable effect of any
in-place mutation of the underlying numpy array. -/
def Heap.write (h : Heap) (id : Nat) (a : PyArr) : Heap :=
  ⟨h.cells.set id a⟩

/-- Extract the data matrix from a cell. -/
def readRows (h : Heap) (id : Nat) : List Row :=
  match h.read id with
  | .rows l => l
  | _ => []

/-- Extract a float array from a cell. -/
def readQs (h : Heap) (id : Nat) : List ℚ :=
  match h.read id with
  | .qs l => l
  | _ => []

/-- Extract a quaternion array from a cell. -/
def readQuats (h : Heap) (id : Nat) : List Quat :=
  match h.read id with
  | .quats l => l
  | _ => []

/-- The mutable attributes of a `GyroIntegrator` instance that the
claims observe: the stored data matrix (a heap reference), the running
orientation, the two cached track arrays (heap references, `None`
before the first integration), and the `already_integrated` flag. -/
structure IntegratorState where
  data : Nat
  orientation : Quat
  time_list : Option Nat
  orientation_list : Option Nat
  already_integrated : Bool

/-- `GyroIntegrator.__init__` (lines 13-65) at the heap level:
`np.copy(input_data)` plus the in-place normalization pass allocate one
array holding the processed data; the cache fields start as `None` and
the flag as `False`. The default initial orientation is
`[1, 0.0001, 0.0001, 0.0001]` (line 52). `none` models the constructor
raising on empty input. -/
noncomputable def initS (input : List Row) (time_scaling gyro_scaling : ℚ) (zero_out_time : Bool)
    (initial_orientation : Option Quat) (h : Heap) : Option (IntegratorState × Heap) :=
  match initData input time_scaling gyro_scaling zero_out_time with
  | none => none
  | some rows =>
    let p := h.alloc (.rows rows)
    some (⟨p.2, initial_orientation.getD ⟨1, 1/10000, 1/10000, 1/10000⟩,
           none, none, false⟩, p.1)

/-- Lines 68-114 at the heap level. A cached run (line 75) returns the
two cached references unchanged; a first run computes the track, stores
it in two freshly allocated arrays (`np.array(...)`, orientation array
first, lines 109-110), leaves `self.orientation` at the last integrated
value, sets the flag, and returns references to the two new arrays. -/
noncomputable def integrate_allS (s : IntegratorState) (h : Heap) :
    (Nat × Nat) × IntegratorState × Heap :=
  if s.already_integrated then
    ((s.time_list.getD 0, s.orientation_list.getD 0), s, h)
  else
    let rows := readRows h s.data
    let track := integrate_all rows s.orientation
    let p1 := h.alloc (.quats track.2)
    let p2 := p1.1.alloc (.qs track.1)
    ((p2.2, p1.2),
     ⟨s.data, orientAfter rows s.orientation rows.length,
      some p2.2, some p1.2, true⟩,
     p2.1)

/-- Lines 117-127: `get_orientations` returns the pair of cached array
references without copying, or `None` before the first integration. -/
def get_orientationsS (s : IntegratorState) : Option (Nat × Nat) :=
  if s.already_integrated then
    some (s.time_list.getD 0, s.orientation_list.getD 0)
  else
    none

/-! ### Raw-data access (lines 239-258) -/

/-- The `axis` argument of `get_raw_data`: a Python `int` or string. -/
inductive Axis where
  | idx (i : ℤ)
  | key (s : String)

/-- A resolved column selector: one column, or the `xyz` slice. -/
inductive ColSel where
  | one (j : Nat)
  | xyz
deriving DecidableEq

/-- Lines 250-256: resolve the axis argument. An `int` is used directly
as a numpy column index (negative values index from the end; out of
range raises `IndexError` at the subscript); a string is looked up in
the literal dict, raising `KeyError` — the spec's InvalidArgument — when
absent. -/
def axisToSel : Axis → Except PyErr ColSel
  | .idx i =>
    if 0 ≤ i ∧ i < 4 then .ok (.one i.toNat)
    else if -4 ≤ i ∧ i < 0 then .ok (.one (i + 4).toNat)
    else .error .indexError
  | .key s =>
    if s = "t" then .ok (.one 0)
    else if s = "x" then .ok (.one 1)
    else if s = "y" then .ok (.one 2)
    else if s = "z" then .ok (.one 3)
    else if s = "xyz" then .ok .xyz
    else .error .invalidArgument

/-- Column `j` of a data row. -/
def rowCol (r : Row) : Nat → ℚ
  | 0 => r.t
  | 1 => r.x
  | 2 => r.y
  | _ => r.z

/-- The array contents selected by `self.data[:, idx]`. -/
def colArr (rows : List Row) : ColSel → PyArr
  | .one j => .qs (rows.map fun r => rowCol r j)
  | .xyz => .vecs (rows.map fun r => (r.x, r.y, r.z))

/-- Lines 239-258: `get_raw_data` resolves the axis, then returns
`np.copy(self.data[:, idx])` — a freshly allocated array holding the
selected column(s). -/
def get_raw_dataS (s : IntegratorState) (h : Heap) (axis : Axis) :
    Except PyErr (Nat × Heap) :=
  match axisToSel axis with
  | .error e => .error e
  | .ok sel =>
    let p := h.alloc (colArr (readRows h s.data) sel)
    .ok (p.2, p.1)

/-! ### Smoothing and the stabilization transform (lines 129-191)

The smoothing strategy is an external collaborator (`smoothing_algos`,
spec section 6, not under `src/`): it is passed here as a function from
the instance's (possibly `None`) cached tracks to a smoothed track or a
Python error. -/

/-- The capability interface of a smoothing strategy, applied to the
values of the instance's cached arrays (`None` before integration). -/
def SmoothingAlgo : Type :=
  Option (List ℚ) → Option (List Quat) → Except PyErr (List ℚ × List Quat)

/-- Lines 135-142: `get_smoothed_orientation` hands the cached tracks —
`None` before any integration — to the smoothing strategy (the default
`PlainSlerp` being itself external). -/
def get_smoothed_orientationS (algo : SmoothingAlgo) (s : IntegratorState) (h : Heap) :
    Except PyErr (List ℚ × List Quat) :=
  algo ((s.time_list).map (readQs h)) ((s.orientation_list).map (readQuats h))

/-- Lines 180-191: `get_stabilize_transform` first smooths, then
builds `np.zeros(self.orientation_list.shape)` — an `AttributeError`
when `orientation_list` is `None` — and fills entry `i` with
`rot_between(smoothed[i], orientation_list[i])`. -/
noncomputable def get_stabilize_transformS (algo : SmoothingAlgo)
    (s : IntegratorState) (h : Heap) : Except PyErr (List ℚ × List Quat) :=
  match get_smoothed_orientationS algo s h with
  | .error e => .error e
  | .ok smoothed =>
    match s.orientation_list with
    | none => .error .attributeError
    | some oid =>
      let ol := readQuats h oid
      let stab := (List.range ol.length).map fun i =>
        rot_between (smoothed.2.getD i default) (ol.getD i default)
      .ok ((s.time_list.map (readQs h)).getD [], stab)

/-! ## EulerIntegrator (lines 383-458)

Its constructor (lines 397-404) scales and zero-outs like the gyro
variant but performs no truncation and no axis negation; none of the
claims touch it. `integrate_all` (lines 415-458) accumulates
`omega * dt` into a plain 3-vector. Two slips decide claim C9: the
accumulator `np.array([0, 0, 0])` has integer dtype, so the in-place
`+=` of a float vector raises `UFuncTypeError` at the first sample with
a nonzero angular velocity; and the final
`return (self.time_list, self.orientation_list)` (line 458) reads an
attribute `orientation_list` that `EulerIntegrator` never defines (the
track is stored in `euler_orientation_list`), raising
`AttributeError`. -/

/-- The attributes of an `EulerIntegrator` instance. There is no
`orientation_list` attribute: lines 423 and 458 read a name that is
never assigned on this class. -/
structure EulerState where
  data : List Row
  euler_orientation_list : Option (List (ℚ × ℚ × ℚ))
  time_list : Option (List ℚ)
  already_integrated : Bool

/-- The running sums the loop of lines 431-449 would accumulate: entry
`i` is the sum over `j ≤ i` of `omega_j * dt_j` (a sample with zero
angular velocity is skipped, leaving the accumulator unchanged). -/
def eulerSums (data : List Row) : List (ℚ × ℚ × ℚ) :=
  (List.foldl
    (fun acc i =>
      let r := data.getD i default
      let dt := symmetricDt data i
      let v := acc.2
      let v' := if r.x = 0 ∧ r.y = 0 ∧ r.z = 0 then v
                else (v.1 + r.x * dt, v.2.1 + r.y * dt, v.2.2 + r.z * dt)
      (acc.1 ++ [v'], v'))
    ([], (0, 0, 0)) (List.range data.length)).1

/-- Lines 415-458: `EulerIntegrator.integrate_all`. With any nonzero
angular-velocity sample the integer-dtype accumulator raises
`UFuncTypeError` before any attribute is stored; with an all-zero
series the loop completes, the fields are stored, and the `return`
raises `AttributeError` on the missing `orientation_list`. Either way
the call never returns normally. -/
def euler_integrate_allS (s : EulerState) :
    EulerState × Except PyErr (List ℚ × List (ℚ × ℚ × ℚ)) :=
  if s.already_integrated then
    (s, .error .attributeError)
  else if s.data.any (fun r => ¬(r.x = 0 ∧ r.y = 0 ∧ r.z = 0)) then
    (s, .error .typeError)
  else
    (⟨s.data, some (eulerSums s.data), some (s.data.map Row.t), true⟩,
     .error .attributeError)

/-! ## The resampler (lines 194-237)

`get_interpolated_stab_transform` walks the output grid
`start, start + interval, ...` against the stabilizing track. The
rotation type and the external `quat.slerp` are parameters (the slerped
entries are produced by the external library, and no claim inspects
their values). The two leading `while` loops, and the inner
interpolation `while`, take fuel: their termination depends on the sign
of `interval` at run time. The model covers the spec's happy path of a
nonempty track with `len(rots) = len(time_list)` (spec section 3: a
StabilizationTrack shares its indexing with the OrientationTrack); on
an empty track the Python code raises `IndexError`, modelled as
`none`. -/

/-- A fueled `while cond(time): emit f(time); time += interval` loop,
returning the emitted `(time, rotation)` pairs and the final value of
`time`. -/
def emitWhile {α : Type} : Nat → (ℚ → Bool) → (ℚ → α) → ℚ → ℚ → List (ℚ × α) × ℚ
  | 0, _, _, time, _ => ([], time)
  | fuel + 1, cond, f, time, interval =>
    if cond time then
      let r := emitWhile fuel cond f (time + interval) interval
      ((time, f time) :: r.1, r.2)
    else
      ([], time)

/-- Lines 221-235: the `for i in range(len(time_list)-1)` body — an
inner interpolation `while time_list[i] <= time < time_list[i+1]`
emitting `slerp(rots[i], rots[i+1], (time - t_i)/(t_{i+1} - t_i))`,
then a gap `if time < time_list[i]` emitting `rots[i]` once. -/
def resampleFor {α : Type} (fuel : Nat) (slerpF : α → α → ℚ → α) :
    List ℚ → List α → ℚ → ℚ → List (ℚ × α)
  | t1 :: t2 :: ts, r1 :: r2 :: rs, time, interval =>
    let w := emitWhile fuel (fun x => decide (t1 ≤ x) && decide (x < t2))
      (fun x => slerpF r1 r2 ((x - t1) / (t2 - t1))) time interval
    let gap : List (ℚ × α) × ℚ :=
      if w.2 < t1 then ([(w.2, r1)], w.2 + interval) else ([], w.2)
    w.1 ++ gap.1 ++ resampleFor fuel slerpF (t2 :: ts) (r2 :: rs) gap.2 interval
  | _, _, _, _ => []

/-- Lines 194-237: `get_interpolated_stab_transform` on a given
stabilizing track: the `while time < 0` clamp loop, the
`while time_list[0] >= time` clamp loop, then the interpolation pass;
returns `(out_times, rotations)`. -/
def get_interpolated_stab_transform {α : Type} (fuel : Nat)
    (slerpF : α → α → ℚ → α) (time_list : List ℚ) (rots : List α)
    (start interval : ℚ) : Option (List ℚ × List α) :=
  match time_list, rots with
  | t0 :: _, r0 :: _ =>
    let w1 := emitWhile fuel (fun x => decide (x < 0)) (fun _ => r0) start interval
    let w2 := emitWhile fuel (fun x => decide (t0 ≥ x)) (fun _ => r0) w1.2 interval
    let body := resampleFor fuel slerpF time_list rots w2.2 interval
    let all := w1.1 ++ w2.1 ++ body
    some (all.map Prod.fst, all.map Prod.snd)
  | _, _ => none

/-! Unfolding equations for `truncateBad`, used for induction. -/

theorem timeOrderCheck_cons_cons (r1 r2 : Row) (rest : List Row) :
    timeOrderCheck (r1 :: r2 :: rest) =
      decide (r2.t < r1.t) :: timeOrderCheck (r2 :: rest) := by
  simp [timeOrderCheck]

theorem truncateBad_nil : truncateBad [] = [] := rfl

theorem truncateBad_single (r : Row) : truncateBad [r] = [r] := rfl

theorem truncateBad_cons_cons (r1 r2 : Row) (rest : List Row) :
    truncateBad (r1 :: r2 :: rest) =
      if r2.t < r1.t then [r1] else r1 :: truncateBad (r2 :: rest) := by
  by_cases hb : r2.t < r1.t
  · simp [truncateBad, timeOrderCheck_cons_cons, hb, List.findIdx_cons]
  · by_cases hany : (timeOrderCheck (r2 :: rest)).any (fun b => b)
    · simp [truncateBad, timeOrderCheck_cons_cons, hb, hany, List.findIdx_cons]
    · simp [truncateBad, timeOrderCheck_cons_cons, hb, hany, List.findIdx_cons]

/-- Truncation always keeps the first row. -/
theorem truncateBad_cons (r : Row) (rest : List Row) :
    ∃ l, truncateBad (r :: rest) = r :: l := by
  match rest with
  | [] => exact ⟨[], rfl⟩
  | r2 :: rest' =>
    rw [truncateBad_cons_cons]
    by_cases hb : r2.t < r.t
    · exact ⟨[], by simp [hb]⟩
    · exact ⟨truncateBad (r2 :: rest'), by simp [hb]⟩

/-- After truncation no adjacent timestamp pair decreases. -/
theorem truncateBad_chain (rows : List Row) :
    List.Chain' (fun a b : Row => a.t ≤ b.t) (truncateBad rows) := by
  match rows with
  | [] => simp [truncateBad_nil]
  | [r] => simp [truncateBad_single]
  | r1 :: r2 :: rest =>
    rw [truncateBad_cons_cons]
    by_cases hb : r2.t < r1.t
    · simp [hb]
    · simp only [hb, if_false]
      obtain ⟨l, hl⟩ := truncateBad_cons r2 rest
      have ih := truncateBad_chain (r2 :: rest)
      rw [hl] at ih ⊢
      exact List.Chain'.cons (le_of_not_lt hb) ih

/-- Scaling with a nonnegative time factor preserves timestamp order. -/
theorem scaleRows_chain (ts gs : ℚ) (hts : 0 ≤ ts) (rows : List Row)
    (h : List.Chain' (fun a b : Row => a.t ≤ b.t) rows) :
    List.Chain' (fun a b : Row => a.t ≤ b.t) (scaleRows ts gs rows) := by
  unfold scaleRows
  rw [List.chain'_map]
  exact h.imp fun a b hab => mul_le_mul_of_nonneg_right hab hts

/-- Shifting all timestamps by a constant preserves timestamp order. -/
theorem zeroOutRows_chain (rows : List Row)
    (h : List.Chain' (fun a b : Row => a.t ≤ b.t) rows) :
    List.Chain' (fun a b : Row => a.t ≤ b.t) (zeroOutRows rows) := by
  match rows with
  | [] => simp [zeroOutRows]
  | r0 :: rest =>
    unfold zeroOutRows
    rw [List.chain'_map]
    exact h.imp fun a b hab => by simpa using hab

/-- The stored timestamps after construction are non-decreasing. -/
theorem initData_chain (input : List Row) (ts gs : ℚ) (zo : Bool) (d : List Row)
    (hts : 0 ≤ ts) (hd : initData input ts gs zo = some d) :
    List.Chain' (fun a b : Row => a.t ≤ b.t) d := by
  unfold initData at hd
  have hchain := scaleRows_chain ts gs hts (truncateBad input) (truncateBad_chain input)
  cases hscaled : scaleRows ts gs (truncateBad input) with
  | nil => rw [hscaled] at hd; exact absurd hd (by simp)
  | cons r rest =>
    rw [hscaled] at hd hchain
    simp only [Option.some_inj] at hd
    subst hd
    cases zo with
    | false => simpa using hchain
    | true => simpa using zeroOutRows_chain _ hchain

/-! Heap facts shared by the stateful claims. -/

theorem Heap.read_alloc_self (h : Heap) (a : PyArr) :
    (h.alloc a).1.read (h.alloc a).2 = a := by
  unfold Heap.alloc Heap.read
  rw [List.getD_append_right _ _ _ _ (le_refl _), Nat.sub_self]
  rfl

theorem Heap.read_alloc_old (h : Heap) (a : PyArr) (j : Nat) (hj : j < h.cells.length) :
    (h.alloc a).1.read j = h.read j := by
  unfold Heap.alloc Heap.read
  exact List.getD_append _ _ _ _ hj

theorem Heap.read_write_self (h : Heap) (id : Nat) (a : PyArr)
    (hid : id < h.cells.length) :
    (h.write id a).read id = a := by
  simp [Heap.write, Heap.read, List.getD_eq_getElem?_getD, List.getElem?_set_self hid]

theorem Heap.read_write_other (h : Heap) (id : Nat) (a : PyArr) (j : Nat) (hj : id ≠ j) :
    (h.write id a).read j = h.read j := by
  simp [Heap.write, Heap.read, List.getD_eq_getElem?_getD, List.getElem?_set_ne hj]

/-! Facts about the integration loop on all-zero input. -/

/-- With all-zero angular velocity every row read by the loop — a
member of the data, or the all-zero out-of-range default — has zero
angular velocity. -/
theorem getD_zero_row (data : List Row)
    (hz : ∀ r ∈ data, r.x = 0 ∧ r.y = 0 ∧ r.z = 0) (k : Nat) :
    (data.getD k default).x = 0 ∧ (data.getD k default).y = 0 ∧
      (data.getD k default).z = 0 := by
  by_cases hk : k < data.length
  · rw [List.getD_eq_getElem _ _ hk]
    exact hz _ (List.getElem_mem hk)
  · rw [List.getD_eq_default _ _ (le_of_not_lt hk)]
    exact ⟨rfl, rfl, rfl⟩

/-- On all-zero angular velocity the running orientation never moves. -/
theorem orientAfter_zero (data : List Row) (o0 : Quat)
    (hz : ∀ r ∈ data, r.x = 0 ∧ r.y = 0 ∧ r.z = 0) :
    ∀ k, orientAfter data o0 k = o0 := by
  intro k
  induction k with
  | zero => rfl
  | succ k ih =>
    show updOrient data (orientAfter data o0 k) k = o0
    rw [ih]
    unfold updOrient
    rw [if_pos (getD_zero_row data hz k)]

/-- Entry `i` of the produced orientation list. -/
theorem orientList_getD (data : List Row) (o0 : Quat) (i : Nat)
    (h : i < data.length) :
    (orientList data o0).getD i default = orientAfter data o0 (i + 1) := by
  unfold orientList
  rw [List.getD_eq_getElem _ _ (by simpa using h)]
  simp

/-! ## Claim C4 — constructor truncation and timestamp order -/

/-- C4 counterexample: the input with timestamps `[0, 0, 1]` passes the
truncation check untouched (`>` does not fire on an equal adjacent
pair), so the stored sequence after construction is `[0, 0, 1]` — not
strictly increasing, contradicting the claim that after construction
the stored timestamp sequence is strictly increasing. -/
theorem init_strictly_increasing_cex :
    initData [⟨0, 0, 0, 0⟩, ⟨0, 0, 0, 0⟩, ⟨1, 0, 0, 0⟩] 1 1 true =
      some [⟨0, 0, 0, 0⟩, ⟨0, 0, 0, 0⟩, ⟨1, 0, 0, 0⟩] ∧
    ¬ List.Chain' (fun a b : Row => a.t < b.t)
        [⟨0, 0, 0, 0⟩, ⟨0, 0, 0, 0⟩, ⟨1, 0, 0, 0⟩] := by
  constructor
  · norm_num [initData, truncateBad, timeOrderCheck, scaleRows, zeroOutRows]
  · simp [List.chain'_cons]

/-- C4 (amended): the constructor truncates at the first index where
time decreases versus the next sample, keeping the inclusive prefix —
for timestamps `[0, 1, 2, 1.5, 3]` exactly `[0, 1, 2]` — and for every
input (with a nonnegative time scaling) the stored timestamp sequence is
non-decreasing: no decreasing adjacent pair remains. (Not strictly
increasing: equal adjacent timestamps are kept, see the
counterexample.) -/
theorem init_truncation_amended :
    ((initData [⟨0, 0, 0, 0⟩, ⟨1, 0, 0, 0⟩, ⟨2, 0, 0, 0⟩, ⟨3/2, 0, 0, 0⟩, ⟨3, 0, 0, 0⟩]
        1 1 true).map (fun d => d.map Row.t) = some [0, 1, 2]) ∧
    ∀ (input : List Row) (ts gs : ℚ) (zo : Bool) (d : List Row),
      0 ≤ ts → initData input ts gs zo = some d →
      List.Chain' (fun a b : Row => a.t ≤ b.t) d := by
  constructor
  · norm_num [initData, truncateBad, timeOrderCheck, scaleRows, zeroOutRows,
      List.findIdx_cons]
  · intro input ts gs zo d hts hd
    exact initData_chain input ts gs zo d hts hd

/-- Witness for C4's amended theorem at a concrete input. -/
theorem init_truncation_amended_witness :
    List.Chain' (fun a b : Row => a.t ≤ b.t) [⟨0, 0, 0, 0⟩] :=
  init_truncation_amended.2 [⟨0, 0, 0, 0⟩] 1 1 false [⟨0, 0, 0, 0⟩]
    (by norm_num) (by norm_num [initData, truncateBad, timeOrderCheck, scaleRows])

/-! ## Claim C3 — all-zero angular velocity -/

/-- The orientation list on all-zero input is the initial orientation
repeated, unnormalized. -/
theorem integrate_all_zero_aux (data : List Row) (o0 : Quat)
    (hz : ∀ r ∈ data, r.x = 0 ∧ r.y = 0 ∧ r.z = 0) :
    (integrate_all data o0).2 = List.replicate data.length o0 := by
  unfold integrate_all orientList
  simp only []
  calc (List.range data.length).map (fun i => orientAfter data o0 (i + 1))
      = (List.range data.length).map (fun _ => o0) := by
        exact List.map_congr_left fun i _ => orientAfter_zero data o0 hz (i + 1)
    _ = List.replicate data.length o0 := by
        rw [List.map_const', List.length_range]

/-- C3 (amended): on an input whose angular-velocity columns are all
zero, `integrate_all` returns the initial orientation unchanged — not
normalized — at every sample. -/
theorem integrate_all_zero_input (data : List Row) (o0 : Quat)
    (hz : ∀ r ∈ data, r.x = 0 ∧ r.y = 0 ∧ r.z = 0) :
    (integrate_all data o0).2 = List.replicate data.length o0 :=
  integrate_all_zero_aux data o0 hz

/-- Witness for C3's amended theorem at a concrete input. -/
theorem integrate_all_zero_input_witness :
    (integrate_all [⟨0, 0, 0, 0⟩, ⟨1, 0, 0, 0⟩] ⟨1, 0, 0, 0⟩).2 =
      List.replicate 2 ⟨1, 0, 0, 0⟩ :=
  integrate_all_zero_input [⟨0, 0, 0, 0⟩, ⟨1, 0, 0, 0⟩] ⟨1, 0, 0, 0⟩ (by decide)

/-- C3 counterexample: the constructor accepts any (also unnormalized)
initial orientation; with initial orientation `(2,0,0,0)` and a single
all-zero sample the output entry is `(2,0,0,0)` itself, while the
normalized initial orientation is `(1,0,0,0)` — so not every entry
equals the normalized initial orientation. -/
theorem integrate_all_zero_not_normalized :
    (integrate_all [⟨0, 0, 0, 0⟩] ⟨2, 0, 0, 0⟩).2 = [⟨2, 0, 0, 0⟩] ∧
    qnormalize ⟨2, 0, 0, 0⟩ = ⟨1, 0, 0, 0⟩ ∧
    ¬ ∀ q ∈ (integrate_all [⟨0, 0, 0, 0⟩] ⟨2, 0, 0, 0⟩).2,
        q = qnormalize ⟨2, 0, 0, 0⟩ := by
  have h1 : (integrate_all [⟨0, 0, 0, 0⟩] ⟨2, 0, 0, 0⟩).2 = [⟨2, 0, 0, 0⟩] := by
    have := integrate_all_zero_aux [⟨0, 0, 0, 0⟩] ⟨2, 0, 0, 0⟩ (by decide)
    simpa using this
  have h2 : qnormalize ⟨2, 0, 0, 0⟩ = (⟨1, 0, 0, 0⟩ : Quat) := by
    unfold qnormalize
    have hs : Real.sqrt (2 * 2 + 0 * 0 + 0 * 0 + 0 * 0) = 2 := by
      rw [show (2 * 2 + 0 * 0 + 0 * 0 + 0 * 0 : ℝ) = 2 ^ 2 by norm_num]
      exact Real.sqrt_sq (by norm_num)
    simp only [hs]
    norm_num
  refine ⟨h1, h2, fun hall => ?_⟩
  have := hall ⟨2, 0, 0, 0⟩ (by rw [h1]; exact List.mem_singleton_self _)
  rw [h2] at this
  have h21 : (2 : ℝ) = 1 := congrArg Quat.w this
  norm_num at h21

/-! ## Claim C6 — the exponential map -/

/-- C6: for every angular velocity and time step, `rate_to_quat` forms
the half-angle vector `ha = omega*dt/2` with magnitude `l`; for
`l > 1e-12` it returns the normalization of `(cos l, ha*sin(l)/l)` and
otherwise the identity quaternion; and at `omega = (0, 0, pi)`,
`dt = 1` the result is exactly `(0, 0, 0, 1)`. -/
theorem rate_to_quat_correct :
    (∀ ox oy oz dt : ℝ,
      rate_to_quat ox oy oz dt =
        (if 1 / 10 ^ 12 <
            Real.sqrt ((ox * dt * (1/2)) * (ox * dt * (1/2)) +
              (oy * dt * (1/2)) * (oy * dt * (1/2)) +
              (oz * dt * (1/2)) * (oz * dt * (1/2))) then
          qnormalize
            ⟨Real.cos (Real.sqrt ((ox * dt * (1/2)) * (ox * dt * (1/2)) +
                (oy * dt * (1/2)) * (oy * dt * (1/2)) +
                (oz * dt * (1/2)) * (oz * dt * (1/2)))),
             ox * dt * (1/2) *
               (Real.sin (Real.sqrt ((ox * dt * (1/2)) * (ox * dt * (1/2)) +
                  (oy * dt * (1/2)) * (oy * dt * (1/2)) +
                  (oz * dt * (1/2)) * (oz * dt * (1/2)))) /
                Real.sqrt ((ox * dt * (1/2)) * (ox * dt * (1/2)) +
                  (oy * dt * (1/2)) * (oy * dt * (1/2)) +
                  (oz * dt * (1/2)) * (oz * dt * (1/2)))),
             oy * dt * (1/2) *
               (Real.sin (Real.sqrt ((ox * dt * (1/2)) * (ox * dt * (1/2)) +
                  (oy * dt * (1/2)) * (oy * dt * (1/2)) +
                  (oz * dt * (1/2)) * (oz * dt * (1/2)))) /
                Real.sqrt ((ox * dt * (1/2)) * (ox * dt * (1/2)) +
                  (oy * dt * (1/2)) * (oy * dt * (1/2)) +
                  (oz * dt * (1/2)) * (oz * dt * (1/2)))),
             oz * dt * (1/2) *
               (Real.sin (Real.sqrt ((ox * dt * (1/2)) * (ox * dt * (1/2)) +
                  (oy * dt * (1/2)) * (oy * dt * (1/2)) +
                  (oz * dt * (1/2)) * (oz * dt * (1/2)))) /
                Real.sqrt ((ox * dt * (1/2)) * (ox * dt * (1/2)) +
                  (oy * dt * (1/2)) * (oy * dt * (1/2)) +
                  (oz * dt * (1/2)) * (oz * dt * (1/2))))⟩
        else ⟨1, 0, 0, 0⟩)) ∧
    rate_to_quat 0 0 Real.pi 1 = ⟨0, 0, 0, 1⟩ := by
  constructor
  · intro ox oy oz dt
    rfl
  · unfold rate_to_quat
    simp only []
    have e0 : (0 : ℝ) * 1 * (1/2) = 0 := by norm_num
    have eπ : Real.pi * 1 * (1/2) = Real.pi / 2 := by ring
    rw [e0, eπ]
    have el : (0 : ℝ) * 0 + 0 * 0 + Real.pi / 2 * (Real.pi / 2) = (Real.pi / 2) ^ 2 := by
      ring
    rw [el, Real.sqrt_sq (by positivity)]
    have hlt : (1 : ℝ) / 10 ^ 12 < Real.pi / 2 := by
      have h3 := Real.pi_gt_three
      rw [div_lt_div_iff₀ (by norm_num) (by norm_num)]
      nlinarith
    rw [if_pos hlt, Real.sin_pi_div_two, Real.cos_pi_div_two]
    have hne : Real.pi / 2 ≠ 0 := by positivity
    have ez : Real.pi / 2 * (1 / (Real.pi / 2)) = 1 := by
      field_simp
    rw [show (0 : ℝ) * (1 / (Real.pi / 2)) = 0 by ring, ez]
    unfold qnormalize
    simp only []
    rw [show (0 : ℝ) * 0 + 0 * 0 + 0 * 0 + 1 * 1 = 1 by ring, Real.sqrt_one]
    norm_num

/-! ## Claim C7 — the per-sample update rule -/

/-- C7: entry `i` of the orientation track is obtained from the
previous orientation by the claimed rule: symmetric time step
`(t[i+1] - t[i-1]) / 2` with `t[i]` substituting for a missing neighbor
at either boundary; hold on an exactly-zero angular velocity; otherwise
right-composition with the incremental quaternion, renormalized. -/
theorem integrate_all_step (data : List Row) (o0 : Quat) (i : Nat)
    (h : i < data.length) :
    (integrate_all data o0).2.getD i default =
      (if (data.getD i default).x = 0 ∧ (data.getD i default).y = 0 ∧
          (data.getD i default).z = 0 then
        orientAfter data o0 i
      else
        qnormalize (quaternion_multiply (orientAfter data o0 i)
          (rate_to_quat (data.getD i default).x (data.getD i default).y
            (data.getD i default).z
            ((((if i < data.length - 1 then (data.getD (i + 1) default).t
                 else (data.getD i default).t) -
               (if 0 < i then (data.getD (i - 1) default).t
                 else (data.getD i default).t)) / 2 : ℚ))))) := by
  show (orientList data o0).getD i default = _
  rw [orientList_getD data o0 i h]
  rfl

/-- Witness for C7 at a concrete input. -/
theorem integrate_all_step_witness :
    (integrate_all [⟨0, 0, 0, 0⟩] ⟨1, 0, 0, 0⟩).2.getD 0 default =
      (⟨1, 0, 0, 0⟩ : Quat) := by
  have h := integrate_all_step [⟨0, 0, 0, 0⟩] ⟨1, 0, 0, 0⟩ 0 (by decide)
  simpa using h

/-! ## Claim C5 — raw-data access -/

/-- C5: a string axis outside the recognized keywords fails with the
invalid-argument error; every recognized key — one of the five keywords
or an in-range integer column index — resolves, and resolution yields a
freshly allocated, independent copy of the selected column(s): the
returned array is a new cell holding the column values, and writing to
it leaves every pre-existing cell (the stored data included)
unchanged. -/
theorem get_raw_data_axis (s : IntegratorState) (h : Heap) :
    (∀ str : String, str ∉ ["t", "x", "y", "z", "xyz"] →
      get_raw_dataS s h (.key str) = .error .invalidArgument) ∧
    (∀ str : String, str ∈ ["t", "x", "y", "z", "xyz"] →
      ∃ sel, axisToSel (.key str) = .ok sel) ∧
    (∀ i : ℤ, -4 ≤ i → i < 4 → ∃ j, axisToSel (.idx i) = .ok (.one j)) ∧
    (∀ axis sel, axisToSel axis = .ok sel →
      get_raw_dataS s h axis =
        .ok ((h.alloc (colArr (readRows h s.data) sel)).2,
             (h.alloc (colArr (readRows h s.data) sel)).1) ∧
      (h.alloc (colArr (readRows h s.data) sel)).1.read
          (h.alloc (colArr (readRows h s.data) sel)).2 =
        colArr (readRows h s.data) sel ∧
      ∀ (a : PyArr) (j : Nat), j < h.cells.length →
        ((h.alloc (colArr (readRows h s.data) sel)).1.write
            (h.alloc (colArr (readRows h s.data) sel)).2 a).read j = h.read j) := by
  refine ⟨?_, ?_, ?_, ?_⟩
  · intro str hstr
    simp only [List.mem_cons, List.not_mem_nil, or_false, not_or] at hstr
    obtain ⟨h1, h2, h3, h4, h5⟩ := hstr
    simp [get_raw_dataS, axisToSel, h1, h2, h3, h4, h5]
  · intro str hstr
    simp only [List.mem_cons, List.not_mem_nil, or_false] at hstr
    rcases hstr with rfl | rfl | rfl | rfl | rfl
    · exact ⟨.one 0, rfl⟩
    · exact ⟨.one 1, rfl⟩
    · exact ⟨.one 2, rfl⟩
    · exact ⟨.one 3, rfl⟩
    · exact ⟨.xyz, rfl⟩
  · intro i h1 h2
    by_cases h0 : 0 ≤ i
    · exact ⟨i.toNat, by simp [axisToSel, h0, h2]⟩
    · refine ⟨(i + 4).toNat, ?_⟩
      have h3 : i < 0 := lt_of_not_ge h0
      simp [axisToSel, h0, h1, h3]
  · intro axis sel hsel
    refine ⟨?_, Heap.read_alloc_self h _, ?_⟩
    · unfold get_raw_dataS
      rw [hsel]
    · intro a j hj
      rw [show ((h.alloc (colArr (readRows h s.data) sel)).1.write
            (h.alloc (colArr (readRows h s.data) sel)).2 a).read j =
          (h.alloc (colArr (readRows h s.data) sel)).1.read j from
        Heap.read_write_other _ _ _ _ (Nat.ne_of_lt hj).symm]
      exact Heap.read_alloc_old h _ j hj

/-- Witness for C5 at a concrete state, heap, and axis. -/
theorem get_raw_data_axis_witness :
    get_raw_dataS ⟨0, ⟨1, 0, 0, 0⟩, none, none, false⟩ ⟨[.rows [⟨0, 0, 0, 0⟩]]⟩
      (.key "t") =
      .ok (1, ⟨[.rows [⟨0, 0, 0, 0⟩], .qs [0]]⟩) :=
  ((get_raw_data_axis ⟨0, ⟨1, 0, 0, 0⟩, none, none, false⟩
      ⟨[.rows [⟨0, 0, 0, 0⟩]]⟩).2.2.2 (.key "t") (.one 0) rfl).1

/-! ## Claim C2 — copy-out versus aliasing of cached arrays -/

/-- C2 (amended): `get_raw_data` returns an independent copy (claim C5),
but `get_orientations` — and a repeated `integrate_all` call — return
the cached arrays themselves, not copies: the returned references are
exactly the instance's `time_list` and `orientation_list` references,
so an in-place write through a returned reference is a write to the
cached array and is seen by every later read of the cached state. -/
theorem get_orientations_aliases (s : IntegratorState) (h : Heap) (tid oid : Nat)
    (a : PyArr) (hA : s.already_integrated = true) (ht : s.time_list = some tid)
    (ho : s.orientation_list = some oid) :
    get_orientationsS s = some (tid, oid) ∧
    integrate_allS s h = ((tid, oid), s, h) ∧
    (oid < h.cells.length → (h.write oid a).read oid = a) := by
  refine ⟨?_, ?_, ?_⟩
  · simp [get_orientationsS, hA, ht, ho]
  · simp [integrate_allS, hA, ht, ho]
  · intro hlt
    exact Heap.read_write_self h oid a hlt

/-- Witness for C2's amended theorem at a concrete instance. -/
theorem get_orientations_aliases_witness :
    get_orientationsS ⟨0, ⟨1, 0, 0, 0⟩, some 2, some 1, true⟩ = some (2, 1) :=
  (get_orientations_aliases ⟨0, ⟨1, 0, 0, 0⟩, some 2, some 1, true⟩
      ⟨[.qs [], .quats [⟨1, 0, 0, 0⟩], .qs [0]]⟩ 2 1 (.qs []) rfl rfl rfl).1

/-- C2 counterexample: a freshly constructed instance on one all-zero
sample is integrated; `get_orientations` hands out reference `1`, the
cached `orientation_list` cell itself; overwriting through that
reference makes a later read of the cached orientation list return the
new contents — the cached state is not left unchanged, so the returned
arrays are not independent copies. -/
theorem get_orientations_copy_cex :
    initS [⟨0, 0, 0, 0⟩] 1 1 true (some ⟨1, 0, 0, 0⟩) ⟨[]⟩ =
      some (⟨0, ⟨1, 0, 0, 0⟩, none, none, false⟩, ⟨[.rows [⟨0, 0, 0, 0⟩]]⟩) ∧
    (integrate_allS ⟨0, ⟨1, 0, 0, 0⟩, none, none, false⟩
        ⟨[.rows [⟨0, 0, 0, 0⟩]]⟩).1 = (2, 1) ∧
    get_orientationsS (integrate_allS ⟨0, ⟨1, 0, 0, 0⟩, none, none, false⟩
        ⟨[.rows [⟨0, 0, 0, 0⟩]]⟩).2.1 = some (2, 1) ∧
    ¬ (((integrate_allS ⟨0, ⟨1, 0, 0, 0⟩, none, none, false⟩
          ⟨[.rows [⟨0, 0, 0, 0⟩]]⟩).2.2.write 1 (.quats [⟨5, 0, 0, 0⟩])).read 1 =
        (integrate_allS ⟨0, ⟨1, 0, 0, 0⟩, none, none, false⟩
          ⟨[.rows [⟨0, 0, 0, 0⟩]]⟩).2.2.read 1) := by
  refine ⟨?_, rfl, rfl, ?_⟩
  · norm_num [initS, initData, truncateBad, timeOrderCheck, scaleRows, zeroOutRows,
      Heap.alloc]
  · intro hEq
    have e1 : ((integrate_allS ⟨0, ⟨1, 0, 0, 0⟩, none, none, false⟩
          ⟨[.rows [⟨0, 0, 0, 0⟩]]⟩).2.2.write 1 (.quats [⟨5, 0, 0, 0⟩])).read 1 =
        PyArr.quats [⟨5, 0, 0, 0⟩] := rfl
    have e2 : (integrate_allS ⟨0, ⟨1, 0, 0, 0⟩, none, none, false⟩
          ⟨[.rows [⟨0, 0, 0, 0⟩]]⟩).2.2.read 1 = PyArr.quats [⟨1, 0, 0, 0⟩] := rfl
    rw [e1, e2] at hEq
    have h5 : (⟨5, 0, 0, 0⟩ : Quat) = ⟨1, 0, 0, 0⟩ := by
      have := List.head_eq_of_cons_eq (by injection hEq)
      exact this
    have h51 : (5 : ℝ) = 1 := congrArg Quat.w h5
    norm_num at h51

/-! ## Claim C8 — idempotence and caching of `integrate_all` -/

/-- C8: a second `integrate_all` call returns exactly the result of the
first and changes neither the instance state nor the heap; on a first
run from an un-integrated state the flag is set, the two cache fields
hold the returned references, and the referenced cells hold the
computed `(time_list, orientation_list)` track. -/
theorem integrate_all_idempotent (s : IntegratorState) (h : Heap) :
    integrate_allS (integrate_allS s h).2.1 (integrate_allS s h).2.2 =
      ((integrate_allS s h).1, (integrate_allS s h).2.1, (integrate_allS s h).2.2) ∧
    (s.already_integrated = false →
      (integrate_allS s h).2.1.already_integrated = true ∧
      (integrate_allS s h).2.1.time_list = some (integrate_allS s h).1.1 ∧
      (integrate_allS s h).2.1.orientation_list = some (integrate_allS s h).1.2 ∧
      (integrate_allS s h).2.2.read (integrate_allS s h).1.1 =
        .qs (integrate_all (readRows h s.data) s.orientation).1 ∧
      (integrate_allS s h).2.2.read (integrate_allS s h).1.2 =
        .quats (integrate_all (readRows h s.data) s.orientation).2) := by
  by_cases hA : s.already_integrated
  · refine ⟨?_, ?_⟩
    · simp [integrate_allS, hA]
    · intro hfalse
      rw [hA] at hfalse
      exact absurd hfalse (by simp)
  · have hs : integrate_allS s h =
        ((((h.alloc (.quats (integrate_all (readRows h s.data) s.orientation).2)).1.alloc
            (.qs (integrate_all (readRows h s.data) s.orientation).1)).2,
          (h.alloc (.quats (integrate_all (readRows h s.data) s.orientation).2)).2),
         ⟨s.data,
          orientAfter (readRows h s.data) s.orientation (readRows h s.data).length,
          some ((h.alloc
              (.quats (integrate_all (readRows h s.data) s.orientation).2)).1.alloc
                (.qs (integrate_all (readRows h s.data) s.orientation).1)).2,
          some (h.alloc (.quats (integrate_all (readRows h s.data) s.orientation).2)).2,
          true⟩,
         ((h.alloc (.quats (integrate_all (readRows h s.data) s.orientation).2)).1.alloc
            (.qs (integrate_all (readRows h s.data) s.orientation).1)).1) := by
      unfold integrate_allS
      rw [if_neg (by simp [hA])]
    refine ⟨?_, fun _ => ⟨?_, ?_, ?_, ?_, ?_⟩⟩
    · rw [hs]
      unfold integrate_allS
      rw [if_pos (by rfl)]
      rfl
    · rw [hs]
    · rw [hs]
    · rw [hs]
    · rw [hs]
      exact Heap.read_alloc_self _ _
    · rw [hs]
      refine Eq.trans (Heap.read_alloc_old _ _ _ ?_) (Heap.read_alloc_self _ _)
      simp [Heap.alloc]

/-- Witness for C8 at a concrete un-integrated instance. -/
theorem integrate_all_idempotent_witness :
    (integrate_allS ⟨0, ⟨1, 0, 0, 0⟩, none, none, false⟩
        ⟨[.rows [⟨0, 0, 0, 0⟩]]⟩).2.1.already_integrated = true :=
  ((integrate_all_idempotent ⟨0, ⟨1, 0, 0, 0⟩, none, none, false⟩
      ⟨[.rows [⟨0, 0, 0, 0⟩]]⟩).2 rfl).1

/-! ## Claim C10 — accessors before integration -/

/-- C10 (amended): before any integration `get_orientations` reports
absence of data (`None`); but `get_stabilize_transform` does not — for
every smoothing strategy, invoking it before integration fails with a
Python error (the strategy errors on the `None` tracks, or
`np.zeros(self.orientation_list.shape)` raises `AttributeError` on
`None`). -/
theorem pre_integration_accessors (algo : SmoothingAlgo) (s : IntegratorState)
    (h : Heap) (hA : s.already_integrated = false)
    (ho : s.orientation_list = none) :
    get_orientationsS s = none ∧
    ∃ e, get_stabilize_transformS algo s h = .error e := by
  refine ⟨by simp [get_orientationsS, hA], ?_⟩
  unfold get_stabilize_transformS
  cases hres : get_smoothed_orientationS algo s h with
  | error e =>
    exact ⟨e, rfl⟩
  | ok sm =>
    exact ⟨.attributeError, by rw [ho]⟩

/-- Witness for C10's amended theorem at a concrete instance. -/
theorem pre_integration_accessors_witness :
    get_orientationsS ⟨0, ⟨1, 0, 0, 0⟩, none, none, false⟩ = none :=
  (pre_integration_accessors (fun _ _ => .ok ([], []))
      ⟨0, ⟨1, 0, 0, 0⟩, none, none, false⟩ ⟨[]⟩ rfl rfl).1

/-- C10 counterexample: with a smoothing strategy that returns
successfully, `get_stabilize_transform` invoked on a freshly
constructed (never integrated) instance raises `AttributeError`
(`None.shape`) instead of reporting absence of data — so not every
derived-state accessor is failure-free before integration. -/
theorem stabilize_before_integration_cex :
    get_stabilize_transformS (fun _ _ => .ok ([], []))
      ⟨0, ⟨1, 0, 0, 0⟩, none, none, false⟩ ⟨[]⟩ = .error .attributeError := rfl

/-! ## Claim C9 — `EulerIntegrator.integrate_all` -/

/-- C9: `EulerIntegrator.integrate_all` never returns a value: every
call ends in a Python error. On the failing input
`[[0,0,0,0],[1,0,0,0]]` (all-zero angular velocity) the loop completes,
the running-sum track is stored in `euler_orientation_list`, and the
final `return (self.time_list, self.orientation_list)` raises
`AttributeError` because `orientation_list` is never assigned on
`EulerIntegrator`; with any nonzero sample (failing input
`[[0,1,0,0]]`) the integer-dtype accumulator's in-place `+=` of a float
vector raises `UFuncTypeError` first. -/
theorem euler_integrate_never_returns :
    (∀ s : EulerState, ∃ e, (euler_integrate_allS s).2 = .error e) ∧
    euler_integrate_allS ⟨[⟨0, 0, 0, 0⟩, ⟨1, 0, 0, 0⟩], none, none, false⟩ =
      (⟨[⟨0, 0, 0, 0⟩, ⟨1, 0, 0, 0⟩], some [(0, 0, 0), (0, 0, 0)], some [0, 1], true⟩,
       .error .attributeError) ∧
    (euler_integrate_allS ⟨[⟨0, 1, 0, 0⟩], none, none, false⟩).2 =
      .error .typeError := by
  refine ⟨?_, ?_, ?_⟩
  · intro s
    unfold euler_integrate_allS
    by_cases h1 : s.already_integrated = true
    · exact ⟨.attributeError, by rw [if_pos h1]⟩
    · rw [if_neg h1]
      by_cases h2 : (s.data.any fun r => ¬(r.x = 0 ∧ r.y = 0 ∧ r.z = 0)) = true
      · exact ⟨.typeError, by rw [if_pos h2]⟩
      · exact ⟨.attributeError, by rw [if_neg h2]⟩
  · rfl
  · rfl

/-! ## Claim C1 — resampler boundary behavior

Helper facts about the fueled loops. -/

/-- Every pair emitted by a clamp loop satisfies the loop condition at
its emission time. -/
theorem emitWhile_mem_cond {α : Type} (cond : ℚ → Bool) (f : ℚ → α) (interval : ℚ) :
    ∀ (fuel : Nat) (time : ℚ) (p : ℚ × α),
      p ∈ (emitWhile fuel cond f time interval).1 → cond p.1 = true := by
  intro fuel
  induction fuel with
  | zero =>
    intro time p hp
    simp [emitWhile] at hp
  | succ n ih =>
    intro time p hp
    by_cases hc : cond time = true
    · rw [show emitWhile (n + 1) cond f time interval =
          ((time, f time) :: (emitWhile n cond f (time + interval) interval).1,
           (emitWhile n cond f (time + interval) interval).2) from by
        simp only [emitWhile]
        rw [if_pos hc]] at hp
      rcases List.mem_cons.mp hp with hh | hh
      · rw [hh]
        exact hc
      · exact ih (time + interval) p hh
    · rw [show emitWhile (n + 1) cond f time interval = ([], time) from by
        simp only [emitWhile]
        rw [if_neg hc]] at hp
      simp at hp

/-- In a `≤`-chained list every member is bounded by the last element. -/
theorem chain_le_mem_getLastD :
    ∀ (l : List ℚ), List.Chain' (fun a b => a ≤ b) l → ∀ x ∈ l, x ≤ l.getLastD 0
  | [], _, x, hx => by simp at hx
  | [a], _, x, hx => by
    simp only [List.mem_singleton] at hx
    subst hx
    simp [List.getLastD]
  | a :: b :: m, hc, x, hx => by
    have hab : a ≤ b := (List.chain'_cons.mp hc).1
    have htail := chain_le_mem_getLastD (b :: m) (List.chain'_cons.mp hc).2
    have hfb : (b :: m).getLastD a = (b :: m).getLastD 0 := by
      rw [List.getLastD_eq_getLast?, List.getLastD_eq_getLast?]
      cases hgl : (b :: m).getLast? with
      | none => exact absurd hgl (by simp)
      | some y => rfl
    rw [List.getLastD_cons, hfb]
    rcases List.mem_cons.mp hx with hh | hh
    · subst hh
      exact le_trans hab (htail b (List.mem_cons_self _ _))
    · exact htail x hh

/-- Every time emitted by the interpolation pass is bounded by any
upper bound of the remaining input timestamps. -/
theorem resampleFor_mem_le {α : Type} (slerpF : α → α → ℚ → α) (u : ℚ) (fuel : Nat) :
    ∀ (tl : List ℚ) (rots : List α) (time interval : ℚ),
      List.Chain' (fun a b => a ≤ b) tl → (∀ x ∈ tl, x ≤ u) →
      ∀ p ∈ resampleFor fuel slerpF tl rots time interval, p.1 ≤ u := by
  intro tl
  induction tl with
  | nil =>
    intro rots time itv _ _ p hp
    rw [show resampleFor fuel slerpF [] rots time itv = [] from rfl] at hp
    simp at hp
  | cons t1 tl' ih =>
    intro rots time itv hchain hub p hp
    cases tl' with
    | nil =>
      rw [show resampleFor fuel slerpF [t1] rots time itv = [] from rfl] at hp
      simp at hp
    | cons t2 ts =>
      cases rots with
      | nil =>
        rw [show resampleFor fuel slerpF (t1 :: t2 :: ts) ([] : List α) time itv = []
          from rfl] at hp
        simp at hp
      | cons r1 rrest =>
        cases rrest with
        | nil =>
          rw [show resampleFor fuel slerpF (t1 :: t2 :: ts) [r1] time itv = []
            from rfl] at hp
          simp at hp
        | cons r2 rs =>
          rw [show resampleFor fuel slerpF (t1 :: t2 :: ts) (r1 :: r2 :: rs) time itv =
              (emitWhile fuel (fun x => decide (t1 ≤ x) && decide (x < t2))
                  (fun x => slerpF r1 r2 ((x - t1) / (t2 - t1))) time itv).1 ++
                (if (emitWhile fuel (fun x => decide (t1 ≤ x) && decide (x < t2))
                      (fun x => slerpF r1 r2 ((x - t1) / (t2 - t1))) time itv).2 < t1 then
                   ([((emitWhile fuel (fun x => decide (t1 ≤ x) && decide (x < t2))
                        (fun x => slerpF r1 r2 ((x - t1) / (t2 - t1))) time itv).2, r1)],
                    (emitWhile fuel (fun x => decide (t1 ≤ x) && decide (x < t2))
                       (fun x => slerpF r1 r2 ((x - t1) / (t2 - t1))) time itv).2 + itv)
                 else
                   ([], (emitWhile fuel (fun x => decide (t1 ≤ x) && decide (x < t2))
                      (fun x => slerpF r1 r2 ((x - t1) / (t2 - t1))) time itv).2)).1 ++
                resampleFor fuel slerpF (t2 :: ts) (r2 :: rs)
                  (if (emitWhile fuel (fun x => decide (t1 ≤ x) && decide (x < t2))
                        (fun x => slerpF r1 r2 ((x - t1) / (t2 - t1))) time itv).2 < t1 then
                     ([((emitWhile fuel (fun x => decide (t1 ≤ x) && decide (x < t2))
                          (fun x => slerpF r1 r2 ((x - t1) / (t2 - t1))) time itv).2, r1)],
                      (emitWhile fuel (fun x => decide (t1 ≤ x) && decide (x < t2))
                         (fun x => slerpF r1 r2 ((x - t1) / (t2 - t1))) time itv).2 + itv)
                   else
                     ([], (emitWhile fuel (fun x => decide (t1 ≤ x) && decide (x < t2))
                        (fun x => slerpF r1 r2 ((x - t1) / (t2 - t1))) time itv).2)).2 itv
            from rfl] at hp
          have ht2u : t2 ≤ u := hub t2 (by simp)
          have ht1u : t1 ≤ u := hub t1 (List.mem_cons_self _ _)
          simp only [List.mem_append] at hp
          rcases hp with (hw | hg) | hr
          · have hcnd := emitWhile_mem_cond _ _ itv fuel time p hw
            have hlt : p.1 < t2 := by
              simp only [Bool.and_eq_true, decide_eq_true_eq] at hcnd
              exact hcnd.2
            exact le_trans (le_of_lt hlt) ht2u
          · split_ifs at hg with hgap
            · simp only [List.mem_singleton] at hg
              rw [hg]
              exact le_trans (le_of_lt hgap) ht1u
            · simp at hg
          · refine ih (r2 :: rs) _ itv (List.chain'_cons.mp hchain).2 ?_ p hr
            intro x hx
            exact hub x (List.mem_cons_of_mem _ hx)

set_option maxRecDepth 8000 in
/-- C1 counterexample: with `time_list = [0, 1, 2]`, `interval = 0.5`,
`start = 0` (and any concrete rotation track), the resampler's output
times are `[0, 0.5, 1, 1.5]` — the last input timestamp `2` is never
emitted, because interpolation requires `time < time_list[i+1]` — so
the output times are not `[0, 0.5, 1, 1.5, 2]` as claimed. -/
theorem resample_times_cex :
    (get_interpolated_stab_transform 8 (fun (a b : ℚ) w => a + (b - a) * w)
        [0, 1, 2] [1, 2, 3] 0 (1/2)).map Prod.fst ≠ some [0, 1/2, 1, 3/2, 2] := by
  norm_num [get_interpolated_stab_transform, emitWhile, resampleFor]

set_option maxRecDepth 8000 in
/-- C1 (amended): with `time_list = [0, 1, 2]`, `interval = 0.5` and
`start = 0` the output times are exactly `[0, 0.5, 1, 1.5]` (`2` itself
is not emitted); with `start = -1` the first two returned rotations are
the first stabilizing rotation unchanged; and in general — for a
`≤`-sorted time list starting at a nonnegative time — no output time
exceeds the last input timestamp. -/
theorem resample_boundary_amended :
    (∀ (α : Type) (slerpF : α → α → ℚ → α) (r0 r1 r2 : α),
      get_interpolated_stab_transform 8 slerpF [0, 1, 2] [r0, r1, r2] 0 (1/2) =
        some ([0, 1/2, 1, 3/2],
          [r0, slerpF r0 r1 (1/2), slerpF r1 r2 0, slerpF r1 r2 (1/2)])) ∧
    (∀ (α : Type) (slerpF : α → α → ℚ → α) (r0 r1 r2 : α),
      get_interpolated_stab_transform 8 slerpF [0, 1, 2] [r0, r1, r2] (-1) (1/2) =
        some ([-1, -1/2, 0, 1/2, 1, 3/2],
          [r0, r0, r0, slerpF r0 r1 (1/2), slerpF r1 r2 0, slerpF r1 r2 (1/2)])) ∧
    (∀ (α : Type) (fuel : Nat) (slerpF : α → α → ℚ → α) (tl : List ℚ)
        (rots : List α) (start interval : ℚ) (out : List ℚ × List α),
      List.Chain' (fun a b => a ≤ b) tl → 0 ≤ tl.headD 0 →
      get_interpolated_stab_transform fuel slerpF tl rots start interval = some out →
      ∀ t ∈ out.1, t ≤ tl.getLastD 0) := by
  refine ⟨?_, ?_, ?_⟩
  · intro α slerpF r0 r1 r2
    norm_num [get_interpolated_stab_transform, emitWhile, resampleFor]
  · intro α slerpF r0 r1 r2
    norm_num [get_interpolated_stab_transform, emitWhile, resampleFor]
  · intro α fuel slerpF tl rots start interval out hchain hhead hout t ht
    cases tl with
    | nil =>
      rw [show get_interpolated_stab_transform fuel slerpF [] rots start interval =
        none from by cases rots <;> rfl] at hout
      exact absurd hout (by simp)
    | cons t0 tl' =>
      cases rots with
      | nil =>
        rw [show get_interpolated_stab_transform fuel slerpF (t0 :: tl') [] start
            interval = none from rfl] at hout
        exact absurd hout (by simp)
      | cons r0 rots' =>
        have ht0 : (0 : ℚ) ≤ t0 := by simpa using hhead
        have hub := chain_le_mem_getLastD (t0 :: tl') hchain
        have hout' : out =
            (((emitWhile fuel (fun x => decide (x < 0)) (fun _ => r0) start
                interval).1 ++
              (emitWhile fuel (fun x => decide (t0 ≥ x)) (fun _ => r0)
                (emitWhile fuel (fun x => decide (x < 0)) (fun _ => r0) start
                  interval).2 interval).1 ++
              resampleFor fuel slerpF (t0 :: tl') (r0 :: rots')
                (emitWhile fuel (fun x => decide (t0 ≥ x)) (fun _ => r0)
                  (emitWhile fuel (fun x => decide (x < 0)) (fun _ => r0) start
                    interval).2 interval).2 interval).map Prod.fst,
             ((emitWhile fuel (fun x => decide (x < 0)) (fun _ => r0) start
                interval).1 ++
              (emitWhile fuel (fun x => decide (t0 ≥ x)) (fun _ => r0)
                (emitWhile fuel (fun x => decide (x < 0)) (fun _ => r0) start
                  interval).2 interval).1 ++
              resampleFor fuel slerpF (t0 :: tl') (r0 :: rots')
                (emitWhile fuel (fun x => decide (t0 ≥ x)) (fun _ => r0)
                  (emitWhile fuel (fun x => decide (x < 0)) (fun _ => r0) start
                    interval).2 interval).2 interval).map Prod.snd) := by
          have := hout.symm
          rwa [show get_interpolated_stab_transform fuel slerpF (t0 :: tl')
              (r0 :: rots') start interval = some _ from rfl,
            Option.some_inj] at this
        rw [hout'] at ht
        simp only [List.map_append, List.mem_append, List.mem_map] at ht
        rcases ht with (⟨p, hp, hpt⟩ | ⟨p, hp, hpt⟩) | ⟨p, hp, hpt⟩
        · have hcnd := emitWhile_mem_cond _ _ interval fuel start p hp
          have hneg : p.1 < 0 := by
            simpa using hcnd
          subst hpt
          exact le_trans (le_of_lt hneg)
            (le_trans ht0 (hub t0 (List.mem_cons_self _ _)))
        · have hcnd := emitWhile_mem_cond _ _ interval fuel _ p hp
          have hle : p.1 ≤ t0 := by
            simpa [ge_iff_le] using hcnd
          subst hpt
          exact le_trans hle (hub t0 (List.mem_cons_self _ _))
        · subst hpt
          exact resampleFor_mem_le slerpF _ fuel (t0 :: tl') (r0 :: rots') _
            interval hchain hub p hp

set_option maxRecDepth 8000 in
/-- Witness for C1's amended theorem: its general bound applied at the
concrete resampling instance, at output time `1.5`. -/
theorem resample_boundary_amended_witness :
    (3/2 : ℚ) ≤ ([0, 1, 2] : List ℚ).getLastD 0 :=
  resample_boundary_amended.2.2 ℚ 8 (fun a b w => a + (b - a) * w) [0, 1, 2]
    [1, 2, 3] 0 (1/2) ([0, 1/2, 1, 3/2], [1, 3/2, 2, 5/2])
    (by norm_num [List.chain'_cons]) (by norm_num)
    (by norm_num [get_interpolated_stab_transform, emitWhile, resampleFor])
    (3/2) (by norm_num)
